import Mathlib

/-!
Verification of the `highfrequency` data-cleaning library.

The development shallowly embeds the two source modules:

* `internal_data_handling.py` — `check_trade_data`, `check_quote_data`
  (schema validators) and `check_column_names` (column canonicalizer);
* `data_handling.py` — `select_exchange`, `auto_select_exchange_trades`
  and `remove_negative_spread`.

Tables are modelled at the granularity each function observes: the
canonicalizer sees a list of named columns, the validators see the
schema (column name to dtype mapping) and the row-level operations see
lists of records.  Machine floats of the source are modelled by exact
integers (the claims under study concern selection/comparison logic,
not rounding), and timestamps by integers.
-/

namespace HighFrequency

/-! ## Model of Python strings and `str.lower` -/

/-- Model of Python `str.lower` on the basic-latin column names used by
the library: lowercase every character. -/
def lowerStr (s : String) : String := String.mk (s.data.map Char.toLower)

/-! ## Model of a polars DataFrame as seen by `check_column_names`

`check_column_names` only reads and rewrites the list of column names;
the cell contents ride along untouched.  A table is a list of
`(column name, column content)` pairs; polars enforces that the column
names of a real DataFrame are pairwise distinct, and `DataFrame.rename`
raises when a rename would produce duplicate names. -/

/-- A table, for the column-renaming functions: named columns with
abstract contents. -/
abbrev ColDF (α : Type) := List (String × α)

/-- The list of column names (`df.columns`). -/
def colNames {α : Type} (df : ColDF α) : List String := df.map Prod.fst

/-- Failure modes of polars `DataFrame.rename`: a key of the mapping is
not a column of the frame, or the renaming would produce duplicate
column names. -/
inductive RenameError where
  | columnNotFound : RenameError
  | duplicateColumn : RenameError
deriving DecidableEq, Repr

/-- Apply a rename mapping to one name: rename if the name is a key of
the mapping, keep it otherwise. -/
def applyMap (m : List (String × String)) (n : String) : String :=
  (m.lookup n).getD n

/-- Model of polars `DataFrame.rename(mapping)`: every key of the
mapping must be an existing column, and the renamed frame must still
have pairwise-distinct column names. -/
def renameDF {α : Type} (m : List (String × String)) (df : ColDF α) :
    Except RenameError (ColDF α) :=
  if ∀ p ∈ m, p.1 ∈ colNames df then
    let renamed : ColDF α := df.map (fun p => (applyMap m p.1, p.2))
    if (colNames renamed).Nodup then Except.ok renamed
    else Except.error RenameError.duplicateColumn
  else Except.error RenameError.columnNotFound

/-- The fixed alias table of `check_column_names` (source lines 98-108). -/
def rename_map : List (String × String) :=
  [("ask", "ofr"),
   ("sym_root", "symbol"),
   ("bidsize", "bidsiz"),
   ("asksize", "ofrsiz"),
   ("asksiz", "ofrsiz"),
   ("ofrsize", "ofrsiz"),
   ("tr_scond", "cond"),
   ("cr", "corr"),
   ("tr_corr", "corr")]

/-- The lowercasing mapping `\x7bcol: col.lower() for col in df.columns\x7d`. -/
def lowerMapping {α : Type} (df : ColDF α) : List (String × String) :=
  (colNames df).map (fun c => (c, lowerStr c))

/-- Model of `check_column_names` (source lines 85-113): lowercase all
column names, then apply the alias table restricted to the columns that
are present. -/
def check_column_names {α : Type} (df : ColDF α) : Except RenameError (ColDF α) :=
  (renameDF (lowerMapping df) df).bind
    (fun df1 => renameDF (rename_map.filter (fun p => decide (p.1 ∈ colNames df1))) df1)

/-- The canonical form of one column name: lowercase it, then apply the
alias table. -/
def canonName (n : String) : String := applyMap rename_map (lowerStr n)

/-- The canonical form of a whole table. -/
def canonDF {α : Type} (df : ColDF α) : ColDF α :=
  df.map (fun p => (canonName p.1, p.2))

/-! ## Schema-level model for the validators

`check_trade_data` and `check_quote_data` read only `df.schema` (a
mapping from column name to element dtype) and return the input frame
unchanged on success.  A schema is an association list from column name
to dtype; polars dtypes that the validators distinguish are listed and
every other dtype is represented by `Other`. -/

/-- Polars element dtypes, as far as the validators distinguish them. -/
inductive PType where
  | Float64 : PType
  | Int64 : PType
  | Datetime : PType
  | Utf8 : PType
  | Other : PType
deriving DecidableEq, Repr

/-- A DataFrame schema: `df.schema`, a name-to-dtype mapping. -/
abbrev Schema := List (String × PType)

/-- Errors of the validators: Python `KeyError` (raised explicitly for
required columns and implicitly by `df_schema[...]` on an absent key)
and Python `TypeError` (wrong element dtype), each carrying the column
concerned. -/
inductive CheckError where
  | keyError : String → CheckError
  | typeError : String → CheckError
deriving DecidableEq, Repr

/-- Model of `check_trade_data` (internal_data_handling.py lines 6-38),
at schema granularity.  Returns the unchanged input together with the
flag `warned`: whether the non-fatal missing-symbol warning fired.
The `isinstance` guard is subsumed by typing. -/
def check_trade_data (s : Schema) : Except CheckError (Schema × Bool) :=
  if (s.lookup "price").isNone then Except.error (CheckError.keyError "price")
  else if (s.lookup "dt").isNone then Except.error (CheckError.keyError "dt")
  else
    let warned := (s.lookup "symbol").isNone && (s.lookup "sym_root").isNone
    if s.lookup "price" ≠ some PType.Float64 then Except.error (CheckError.typeError "price")
    else
      match s.lookup "size" with
      | none => Except.error (CheckError.keyError "size")
      | some t =>
          if ¬ (t = PType.Float64 ∨ t = PType.Int64) then
            Except.error (CheckError.typeError "size")
          else if s.lookup "dt" ≠ some PType.Datetime then
            Except.error (CheckError.typeError "dt")
          else Except.ok (s, warned)

/-- Model of `check_quote_data` (internal_data_handling.py lines 41-82),
at schema granularity, analogous to `check_trade_data`. -/
def check_quote_data (s : Schema) : Except CheckError (Schema × Bool) :=
  if (s.lookup "dt").isNone then Except.error (CheckError.keyError "dt")
  else if (s.lookup "bid").isNone then Except.error (CheckError.keyError "bid")
  else if (s.lookup "ofr").isNone then Except.error (CheckError.keyError "ofr")
  else
    let warned := (s.lookup "symbol").isNone && (s.lookup "sym_root").isNone
    if s.lookup "bid" ≠ some PType.Float64 then Except.error (CheckError.typeError "bid")
    else if s.lookup "ofr" ≠ some PType.Float64 then Except.error (CheckError.typeError "ofr")
    else
      match s.lookup "bidsiz" with
      | none => Except.error (CheckError.keyError "bidsiz")
      | some tb =>
          if ¬ (tb = PType.Float64 ∨ tb = PType.Int64) then
            Except.error (CheckError.typeError "bidsiz")
          else
            match s.lookup "ofrsiz" with
            | none => Except.error (CheckError.keyError "ofrsiz")
            | some tq =>
                if ¬ (tq = PType.Float64 ∨ tq = PType.Int64) then
                  Except.error (CheckError.typeError "ofrsiz")
                else if s.lookup "dt" ≠ some PType.Datetime then
                  Except.error (CheckError.typeError "dt")
                else Except.ok (s, warned)

/-! ## Row-level model

The selection and filtering functions act on the rows of a validated
canonical table.  A trade record carries the columns those functions
touch; `price` stands for the remaining payload columns, which the
joins and filters carry along unchanged.  Floats are modelled by exact
integers (the claims concern grouping/comparison logic, not rounding)
and timestamps by integers. -/

/-- One trade record of a validated canonical trade table. -/
structure TradeRow where
  symbol : String
  ex : String
  size : Int
  dt : Int
  price : Int
deriving DecidableEq, Repr

/-- One quote record of a validated canonical quote table. -/
structure QuoteRow where
  bid : Int
  ofr : Int
  bidsiz : Int
  ofrsiz : Int
  dt : Int
deriving DecidableEq, Repr

/-- Ordered insertion, ascending in `key`. -/
def insertAsc {α : Type} (key : α → Int) (a : α) : List α → List α
  | [] => [a]
  | b :: l => if key a ≤ key b then a :: b :: l else b :: insertAsc key a l

/-- Model of polars `DataFrame.sort(column)` (ascending).  The source
calls `sort` with its default `maintain_order=False`, which fixes only
the multiset of rows and the key order; the theorems below use only
those two properties of this deterministic stand-in. -/
def sortAsc {α : Type} (key : α → Int) : List α → List α
  | [] => []
  | a :: l => insertAsc key a (sortAsc key l)

/-- Modelled from the spec: the repository imports `EXCHANGES` from
`helpers.exchange_names`, a module that is not part of the sources
given; per the spec it is a fixed, closed mapping from exchange code to
human-readable exchange name, whose codes include the NYSE code "N"
(the default selection) and the codes "Q" and "P" used in the spec's
examples. -/
def EXCHANGES : List (String × String) :=
  [("N", "New York Stock Exchange"),
   ("Q", "NASDAQ"),
   ("P", "NYSE Arca")]

/-- A DataFrame as `select_exchange` sees it: the column-name list
drives the presence checks, the records drive the filter and sort.
Column parameters are fixed at their defaults
(`exchange_column = ex`, `time_column = dt`). -/
structure PolarsDF where
  cols : List String
  rows : List TradeRow
deriving DecidableEq, Repr

/-- The distinct error conditions of `select_exchange` (all raised as
`ValueError` in Python, distinguished by their message). -/
inductive SelectError where
  | missingColumn : String → SelectError
  | invalidExchange : String → SelectError
deriving DecidableEq, Repr

/-- Model of `select_exchange` (data_handling.py lines 7-41): check the
exchange column, then the time column, then membership of the requested
code in `EXCHANGES`; filter rows on the exchange column and sort by
time.  The `isinstance` guard is subsumed by typing. -/
def select_exchange (df : PolarsDF) (exchange : String) : Except SelectError (List TradeRow) :=
  if "ex" ∉ df.cols then Except.error (SelectError.missingColumn "ex")
  else if "dt" ∉ df.cols then Except.error (SelectError.missingColumn "dt")
  else if (EXCHANGES.lookup exchange).isNone then
    Except.error (SelectError.invalidExchange exchange)
  else Except.ok (sortAsc (fun r => r.dt) (df.rows.filter (fun r => r.ex == exchange)))

/-- Step 1 helper: the summed size of the `(symbol, exchange)` group. -/
def totalSize (rows : List TradeRow) (sym exg : String) : Int :=
  ((rows.filter (fun r => r.symbol == sym && r.ex == exg)).map TradeRow.size).sum

/-- The distinct `(symbol, exchange)` pairs of the table: the keys of
`group_by(['symbol', exchange_column])`. -/
def groupPairs (rows : List TradeRow) : List (String × String) :=
  (rows.map (fun r => (r.symbol, r.ex))).dedup

/-- Step 1 of `auto_select_exchange_trades`: group by
`(symbol, exchange)` and sum the size column (`total_size`). -/
def aggregated_df (rows : List TradeRow) : List ((String × String) × Int) :=
  (groupPairs rows).map (fun p => (p, totalSize rows p.1 p.2))

/-- The distinct symbols of the aggregated frame: the keys of its
`group_by('symbol')`. -/
def symbolList (rows : List TradeRow) : List String :=
  ((aggregated_df rows).map (fun a => a.1.1)).dedup

/-- `pl.max('total_size')` over one symbol's groups. -/
def maxGroupTotal (rows : List TradeRow) (sym : String) : Int :=
  match ((aggregated_df rows).filter (fun a => a.1.1 == sym)).map Prod.snd with
  | [] => 0
  | t :: ts => ts.foldl max t

/-- Step 2 of `auto_select_exchange_trades`: the per-symbol maximum
group total (`max_size`). -/
def max_size_df (rows : List TradeRow) : List (String × Int) :=
  (symbolList rows).map (fun s => (s, maxGroupTotal rows s))

/-- Step 3: inner join of the aggregated frame with the per-symbol
maxima on `symbol`; entries are `(key, total_size, max_size)`. -/
def joined_df (rows : List TradeRow) : List ((String × String) × Int × Int) :=
  (aggregated_df rows).flatMap
    (fun a => ((max_size_df rows).filter (fun m => m.1 == a.1.1)).map
      (fun m => (a.1, a.2, m.2)))

/-- Step 4: keep the groups whose total equals their symbol's maximum. -/
def filtered_df (rows : List TradeRow) : List ((String × String) × Int × Int) :=
  (joined_df rows).filter (fun t => t.2.1 == t.2.2)

/-- Model of `auto_select_exchange_trades` (data_handling.py lines
44-99) on the rows of a validated canonical trade table (the upstream
`check_column_names` / `check_trade_data` calls leave such a table's
rows unchanged): step 5 inner-joins the original rows back on the kept
`(symbol, exchange)` keys and sorts by time. -/
def auto_select_exchange_trades (rows : List TradeRow) : List TradeRow :=
  sortAsc (fun r => r.dt)
    (rows.flatMap
      (fun r => ((filtered_df rows).filter (fun t => t.1 == (r.symbol, r.ex))).map
        (fun _ => r)))

/-- The row-selection predicate the auto-selection is claimed to
realize: the row's group total equals its symbol's maximum group
total. -/
def keepRow (rows : List TradeRow) (r : TradeRow) : Prop :=
  totalSize rows r.symbol r.ex = maxGroupTotal rows r.symbol

instance (rows : List TradeRow) (r : TradeRow) : Decidable (keepRow rows r) := by
  unfold keepRow; infer_instance

/-- Model of `remove_negative_spread` (data_handling.py lines 185-210)
on the rows of a validated canonical quote table (the upstream checks
leave such a table's rows unchanged): keep rows with offer strictly
above bid, sort by time. -/
def remove_negative_spread (qs : List QuoteRow) : List QuoteRow :=
  sortAsc (fun r => r.dt) (qs.filter (fun r => decide (r.ofr > r.bid)))

/-! ### Lemmas on lowercasing -/

theorem toNat_ofNat_small {m : Nat} (h : m < 55296) : (Char.ofNat m).toNat = m := by
  unfold Char.ofNat
  rw [dif_pos (Or.inl h)]
  simp [Char.ofNatAux, Char.toNat, UInt32.ofNat', UInt32.toNat, BitVec.toNat_ofNatLt]

theorem toLower_idem (c : Char) : c.toLower.toLower = c.toLower := by
  unfold Char.toLower
  by_cases h : c.toNat ≥ 65 ∧ c.toNat ≤ 90
  · rw [if_pos h]
    have h32 : (Char.ofNat (c.toNat + 32)).toNat = c.toNat + 32 :=
      toNat_ofNat_small (by omega)
    rw [if_neg (by omega)]
  · rw [if_neg h, if_neg h]

theorem lowerStr_idem (s : String) : lowerStr (lowerStr s) = lowerStr s := by
  unfold lowerStr
  simp only [List.map_map]
  congr 1
  exact List.map_congr_left (fun c _ => toLower_idem c)

/-! ### Supporting lemmas about `renameDF` and `check_column_names` -/

theorem mem_of_lookup_eq_some {l : List (String × String)} {a b : String}
    (h : l.lookup a = some b) : (a, b) ∈ l := by
  rcases List.lookup_eq_some_iff.mp h with ⟨l₁, l₂, rfl, -⟩
  simp

theorem lookup_map_self (ns : List String) (f : String → String) (n : String)
    (h : n ∈ ns) : (ns.map (fun c => (c, f c))).lookup n = some (f n) := by
  induction ns with
  | nil => cases h
  | cons c cs ih =>
      rw [List.map_cons, List.lookup_cons]
      cases hb : (n == c) with
      | false =>
          have hm : n ∈ cs := by
            rcases List.mem_cons.mp h with rfl | hm
            · simp at hb
            · exact hm
          exact ih hm
      | true =>
          have heq : n = c := by simpa using hb
          subst heq
          rfl

theorem lookup_filter_mem (l : List (String × String)) (ns : List String)
    (n : String) (h : n ∈ ns) :
    (l.filter (fun p => decide (p.1 ∈ ns))).lookup n = l.lookup n := by
  induction l with
  | nil => rfl
  | cons p t ih =>
      cases hk : (n == p.1) with
      | true =>
          have hnp : n = p.1 := by simpa using hk
          have hp : decide (p.1 ∈ ns) = true := by simp [← hnp, h]
          simp only [List.filter_cons, hp, if_true]
          rw [List.lookup_cons, List.lookup_cons, hk]
      | false =>
          cases hq : decide (p.1 ∈ ns) with
          | true =>
              simp only [List.filter_cons, hq, if_true]
              rw [List.lookup_cons, List.lookup_cons, hk]
              exact ih
          | false =>
              simp only [List.filter_cons, hq, if_false]
              rw [List.lookup_cons, hk]
              exact ih

theorem lookup_filter_none (l : List (String × String)) (q : String × String → Bool)
    (n : String) (h : l.lookup n = none) : (l.filter q).lookup n = none := by
  induction l with
  | nil => rfl
  | cons p t ih =>
      rw [List.lookup_cons] at h
      cases hk : (n == p.1) with
      | true =>
          rw [hk] at h
          exact Option.noConfusion h
      | false =>
          rw [hk] at h
          cases hq : q p with
          | true =>
              rw [List.filter_cons_of_pos hq, List.lookup_cons, hk]
              exact ih h
          | false =>
              rw [List.filter_cons_of_neg (by simp [hq])]
              exact ih h

/-- Every alias target is itself fixed: it is not a key of the alias
table and is already lowercase.  (This is the fact the spec phrases as
"no canonical target is itself an alias key".) -/
theorem rename_map_targets_fixed :
    rename_map.all
      (fun p => (rename_map.lookup p.2).isNone && (lowerStr p.2 == p.2)) = true := by
  decide

theorem lookup_target_none {y t : String} (h : rename_map.lookup y = some t) :
    rename_map.lookup t = none ∧ lowerStr t = t := by
  have hm : (y, t) ∈ rename_map := mem_of_lookup_eq_some h
  have := List.all_eq_true.mp rename_map_targets_fixed _ hm
  simp only [Bool.and_eq_true, Option.isNone_iff_eq_none, beq_iff_eq] at this
  exact this

/-- `canonName` is a fixed point on canonical names. -/
theorem canonName_canonName (n : String) : canonName (canonName n) = canonName n := by
  cases hy : rename_map.lookup (lowerStr n) with
  | none =>
      have h1 : canonName n = lowerStr n := by
        unfold canonName applyMap; rw [hy]; rfl
      rw [h1]
      unfold canonName applyMap
      rw [lowerStr_idem, hy]
      rfl
  | some t =>
      have h1 : canonName n = t := by
        unfold canonName applyMap; rw [hy]; rfl
      rcases lookup_target_none hy with ⟨hnone, hlow⟩
      rw [h1]
      unfold canonName applyMap
      rw [hlow, hnone]
      rfl

theorem colNames_map {α : Type} (df : ColDF α) (f : String → String) :
    colNames (df.map (fun p => (f p.1, p.2))) = (colNames df).map f := by
  simp [colNames, List.map_map, Function.comp]

theorem except_bind_ok {ε β γ : Type} (a : β) (f : β → Except ε γ) :
    (Except.ok (ε := ε) a).bind f = f a := rfl

theorem except_bind_error {ε β γ : Type} (e : ε) (f : β → Except ε γ) :
    (Except.error (α := β) e).bind f = Except.error e := rfl

/-- Step 1 of `check_column_names` in closed form: the lowercasing
rename succeeds exactly when the lowercased names are distinct. -/
theorem renameDF_lower_eq {α : Type} (df : ColDF α) :
    renameDF (lowerMapping df) df =
      if ((colNames df).map lowerStr).Nodup then
        Except.ok (df.map (fun p => (lowerStr p.1, p.2)))
      else Except.error RenameError.duplicateColumn := by
  have hall : ∀ p ∈ lowerMapping df, p.1 ∈ colNames df := by
    intro p hp
    rcases List.mem_map.mp hp with ⟨c, hc, rfl⟩
    exact hc
  have hmap : df.map (fun p => (applyMap (lowerMapping df) p.1, p.2)) =
      df.map (fun p => (lowerStr p.1, p.2)) := by
    refine List.map_congr_left ?_
    intro p hp
    have hmem : p.1 ∈ colNames df := List.mem_map.mpr ⟨p, hp, rfl⟩
    unfold applyMap lowerMapping
    rw [lookup_map_self _ _ _ hmem, Option.getD_some]
  unfold renameDF
  rw [if_pos hall]
  simp only [hmap, colNames_map]

/-- Step 2 of `check_column_names` in closed form. -/
theorem renameDF_alias_eq {α : Type} (df1 : ColDF α) :
    renameDF (rename_map.filter (fun p => decide (p.1 ∈ colNames df1))) df1 =
      if ((colNames df1).map (applyMap rename_map)).Nodup then
        Except.ok (df1.map (fun p => (applyMap rename_map p.1, p.2)))
      else Except.error RenameError.duplicateColumn := by
  have hall : ∀ p ∈ rename_map.filter (fun p => decide (p.1 ∈ colNames df1)),
      p.1 ∈ colNames df1 := by
    intro p hp
    have := (List.mem_filter.mp hp).2
    simpa using this
  have hmap : df1.map
      (fun p => (applyMap (rename_map.filter fun q => decide (q.1 ∈ colNames df1)) p.1, p.2)) =
      df1.map (fun p => (applyMap rename_map p.1, p.2)) := by
    refine List.map_congr_left ?_
    intro p hp
    have hmem : p.1 ∈ colNames df1 := List.mem_map.mpr ⟨p, hp, rfl⟩
    unfold applyMap
    rw [lookup_filter_mem _ _ _ hmem]
  unfold renameDF
  rw [if_pos hall]
  simp only [hmap, colNames_map]

theorem not_nodup_map {β γ : Type} (l : List β) (f : β → γ) (h : ¬ l.Nodup) :
    ¬ (l.map f).Nodup := fun hn => h hn.of_map

/-- Master characterization of `check_column_names`: it canonicalizes
every name (lowercase, then alias) when the canonical names are
pairwise distinct, and reports a duplicate-column failure otherwise. -/
theorem check_column_names_eq {α : Type} (df : ColDF α) :
    check_column_names df =
      if ((colNames df).map canonName).Nodup then Except.ok (canonDF df)
      else Except.error RenameError.duplicateColumn := by
  unfold check_column_names
  rw [renameDF_lower_eq]
  by_cases h1 : ((colNames df).map lowerStr).Nodup
  · rw [if_pos h1, except_bind_ok, renameDF_alias_eq]
    have hnames :
        ((colNames (df.map fun p => (lowerStr p.1, p.2))).map (applyMap rename_map)) =
        (colNames df).map canonName := by
      rw [colNames_map, List.map_map]
      rfl
    rw [hnames]
    by_cases h2 : ((colNames df).map canonName).Nodup
    · rw [if_pos h2, if_pos h2]
      unfold canonDF canonName
      simp [List.map_map, Function.comp]
    · rw [if_neg h2, if_neg h2]
  · rw [if_neg h1, except_bind_error]
    have h2 : ¬ ((colNames df).map canonName).Nodup := by
      intro hn
      apply h1
      have heq : (colNames df).map canonName =
          ((colNames df).map lowerStr).map (applyMap rename_map) := by
        rw [List.map_map]; rfl
      rw [heq] at hn
      exact hn.of_map
    rw [if_neg h2]

/-! ### Lemmas on `sortAsc` -/

theorem perm_insertAsc {α : Type} (key : α → Int) (a : α) (l : List α) :
    (insertAsc key a l).Perm (a :: l) := by
  induction l with
  | nil => exact List.Perm.refl _
  | cons b t ih =>
      unfold insertAsc
      by_cases h : key a ≤ key b
      · rw [if_pos h]
      · rw [if_neg h]
        exact (ih.cons b).trans (List.Perm.swap a b t)

theorem perm_sortAsc {α : Type} (key : α → Int) (l : List α) :
    (sortAsc key l).Perm l := by
  induction l with
  | nil => exact List.Perm.refl _
  | cons a t ih =>
      unfold sortAsc
      exact (perm_insertAsc key a (sortAsc key t)).trans (ih.cons a)

theorem sorted_insertAsc {α : Type} (key : α → Int) (a : α) (l : List α)
    (h : List.Pairwise (fun x y => key x ≤ key y) l) :
    List.Pairwise (fun x y => key x ≤ key y) (insertAsc key a l) := by
  induction l with
  | nil => simp [insertAsc]
  | cons b t ih =>
      rcases List.pairwise_cons.mp h with ⟨hb, ht⟩
      unfold insertAsc
      by_cases hab : key a ≤ key b
      · rw [if_pos hab]
        refine List.pairwise_cons.mpr ⟨?_, h⟩
        intro c hc
        rcases List.mem_cons.mp hc with rfl | hct
        · exact hab
        · exact le_trans hab (hb c hct)
      · rw [if_neg hab]
        have hba : key b ≤ key a := le_of_not_le hab
        refine List.pairwise_cons.mpr ⟨?_, ih ht⟩
        intro c hc
        have hc' : c ∈ a :: t := (perm_insertAsc key a t).mem_iff.mp hc
        rcases List.mem_cons.mp hc' with rfl | hct
        · exact hba
        · exact hb c hct

theorem sorted_sortAsc {α : Type} (key : α → Int) (l : List α) :
    List.Pairwise (fun x y => key x ≤ key y) (sortAsc key l) := by
  induction l with
  | nil => simp [sortAsc]
  | cons a t ih =>
      unfold sortAsc
      exact sorted_insertAsc key a (sortAsc key t) ih

/-! ### Claim C10: `remove_negative_spread` -/

/-- C10: `remove_negative_spread` retains exactly the rows whose offer
price is strictly greater than the bid price (time-sorted): rows with
zero spread (`ofr = bid`) are removed from the output along with
negative-spread rows. -/
theorem claimC10_remove_negative_spread (qs : List QuoteRow) :
    (remove_negative_spread qs).Perm (qs.filter (fun r => decide (r.ofr > r.bid))) ∧
    (∀ r ∈ remove_negative_spread qs, r.bid < r.ofr) ∧
    (∀ r ∈ qs, r.ofr = r.bid → r ∉ remove_negative_spread qs) ∧
    (∀ r ∈ qs, r.ofr < r.bid → r ∉ remove_negative_spread qs) ∧
    (∀ r ∈ qs, r.bid < r.ofr → r ∈ remove_negative_spread qs) ∧
    List.Pairwise (fun x y => x.dt ≤ y.dt) (remove_negative_spread qs) := by
  have hperm : (remove_negative_spread qs).Perm
      (qs.filter (fun r => decide (r.ofr > r.bid))) :=
    perm_sortAsc _ _
  have hmem : ∀ r, r ∈ remove_negative_spread qs ↔
      (r ∈ qs ∧ r.bid < r.ofr) := by
    intro r
    rw [hperm.mem_iff, List.mem_filter]
    simp [gt_iff_lt]
  refine ⟨hperm, ?_, ?_, ?_, ?_, ?_⟩
  · intro r hr
    exact ((hmem r).mp hr).2
  · intro r hr hzero hin
    have := ((hmem r).mp hin).2
    omega
  · intro r hr hneg hin
    have := ((hmem r).mp hin).2
    omega
  · intro r hr hpos
    exact (hmem r).mpr ⟨hr, hpos⟩
  · exact sorted_sortAsc _ _

/-! ### Claims C4, C5, C8: the schema validators -/

/-- C4: in both trade and quote validation every required-column
presence check runs strictly before every element-type check; in
particular a table missing `price` (whatever the type of `dt`) makes
`check_trade_data` report the missing-column (`KeyError`) failure for
`price`, never a `TypeError`. -/
theorem claimC4_presence_before_type (s : Schema) :
    (s.lookup "price" = none →
      check_trade_data s = Except.error (CheckError.keyError "price")) ∧
    (∀ c, check_trade_data s = Except.error (CheckError.typeError c) →
      (s.lookup "price").isSome ∧ (s.lookup "dt").isSome) ∧
    (s.lookup "dt" = none →
      check_quote_data s = Except.error (CheckError.keyError "dt")) ∧
    (∀ c, check_quote_data s = Except.error (CheckError.typeError c) →
      (s.lookup "dt").isSome ∧ (s.lookup "bid").isSome ∧ (s.lookup "ofr").isSome) := by
  refine ⟨?_, ?_, ?_, ?_⟩
  · intro h
    simp [check_trade_data, h]
  · intro c h
    rcases hp : s.lookup "price" with _ | tp
    · simp [check_trade_data, hp] at h
    · rcases hd : s.lookup "dt" with _ | td
      · simp [check_trade_data, hp, hd] at h
      · simp [hp, hd]
  · intro h
    simp [check_quote_data, h]
  · intro c h
    rcases hd : s.lookup "dt" with _ | td
    · simp [check_quote_data, hd] at h
    · rcases hb : s.lookup "bid" with _ | tb
      · simp [check_quote_data, hd, hb] at h
      · rcases ho : s.lookup "ofr" with _ | tq
        · simp [check_quote_data, hd, hb, ho] at h
        · simp [hd, hb, ho]

/-- C4 witness: a table missing `price` whose `dt` column has a
non-datetime type fails with the `KeyError` for `price`, and a quote
table missing `dt` fails with the `KeyError` for `dt`. -/
theorem claimC4_witness :
    check_trade_data [("dt", PType.Utf8)] =
      Except.error (CheckError.keyError "price") ∧
    check_quote_data [("bid", PType.Utf8)] =
      Except.error (CheckError.keyError "dt") :=
  ⟨(claimC4_presence_before_type [("dt", PType.Utf8)]).1 rfl,
   (claimC4_presence_before_type [("bid", PType.Utf8)]).2.2.1 rfl⟩

/-- C5 counterexample: a trade table lacking `size` whose required
columns are present and correctly typed does NOT validate successfully:
the unguarded `df_schema['size']` access raises a `KeyError`; likewise
a quote table lacking `bidsiz`. -/
theorem claimC5_counterexample :
    check_trade_data [("price", PType.Float64), ("dt", PType.Datetime)] =
      Except.error (CheckError.keyError "size") ∧
    check_quote_data [("bid", PType.Float64), ("ofr", PType.Float64), ("dt", PType.Datetime)] =
      Except.error (CheckError.keyError "bidsiz") :=
  ⟨rfl, rfl⟩

/-- C5 (amended): the validators raise `TypeError` on a size-like
column only when it is present with a type other than float-or-integer;
but the size-like columns are not optional: when absent (the earlier
checks passing), validation fails with a `KeyError` on that column
instead of succeeding, and a table with all of the checked columns
present and correctly typed validates successfully. -/
theorem claimC5_size_columns (s : Schema) :
    (check_trade_data s = Except.error (CheckError.typeError "size") →
      ∃ t, s.lookup "size" = some t ∧ ¬ (t = PType.Float64 ∨ t = PType.Int64)) ∧
    (s.lookup "price" = some PType.Float64 → s.lookup "size" = none →
      check_trade_data s = Except.error (CheckError.keyError "size") ∨
      check_trade_data s = Except.error (CheckError.keyError "dt")) ∧
    (check_quote_data s = Except.error (CheckError.typeError "bidsiz") →
      ∃ t, s.lookup "bidsiz" = some t ∧ ¬ (t = PType.Float64 ∨ t = PType.Int64)) ∧
    (check_quote_data s = Except.error (CheckError.typeError "ofrsiz") →
      ∃ t, s.lookup "ofrsiz" = some t ∧ ¬ (t = PType.Float64 ∨ t = PType.Int64)) ∧
    (s.lookup "price" = some PType.Float64 → s.lookup "dt" = some PType.Datetime →
      (∃ t, s.lookup "size" = some t ∧ (t = PType.Float64 ∨ t = PType.Int64)) →
      ∃ w, check_trade_data s = Except.ok (s, w)) ∧
    (s.lookup "bid" = some PType.Float64 → s.lookup "ofr" = some PType.Float64 →
      s.lookup "dt" = some PType.Datetime →
      (∃ t, s.lookup "bidsiz" = some t ∧ (t = PType.Float64 ∨ t = PType.Int64)) →
      (∃ t, s.lookup "ofrsiz" = some t ∧ (t = PType.Float64 ∨ t = PType.Int64)) →
      ∃ w, check_quote_data s = Except.ok (s, w)) := by
  refine ⟨?_, ?_, ?_, ?_, ?_, ?_⟩
  · intro h
    rcases hp : s.lookup "price" with _ | tp
    · simp [check_trade_data, hp] at h
    · rcases hd : s.lookup "dt" with _ | td
      · simp [check_trade_data, hp, hd] at h
      · by_cases hty : tp = PType.Float64
        · subst hty
          rcases hsz : s.lookup "size" with _ | t
          · simp [check_trade_data, hp, hd, hsz] at h
          · by_cases hok : t = PType.Float64 ∨ t = PType.Int64
            · by_cases hdt : td = PType.Datetime <;>
                simp [check_trade_data, hp, hd, hsz, hok, hdt] at h
            · exact ⟨t, rfl, hok⟩
        · simp [check_trade_data, hp, hd, hty] at h
  · intro hp hsz
    rcases hd : s.lookup "dt" with _ | td
    · right
      simp [check_trade_data, hp, hd]
    · left
      simp [check_trade_data, hp, hd, hsz]
  · intro h
    rcases hd : s.lookup "dt" with _ | td
    · simp [check_quote_data, hd] at h
    · rcases hb : s.lookup "bid" with _ | tb
      · simp [check_quote_data, hd, hb] at h
      · rcases ho : s.lookup "ofr" with _ | tq
        · simp [check_quote_data, hd, hb, ho] at h
        · by_cases hbt : tb = PType.Float64
          · subst hbt
            by_cases hot : tq = PType.Float64
            · subst hot
              rcases hbs : s.lookup "bidsiz" with _ | t
              · simp [check_quote_data, hd, hb, ho, hbs] at h
              · by_cases hok : t = PType.Float64 ∨ t = PType.Int64
                · rcases hos : s.lookup "ofrsiz" with _ | t2
                  · simp [check_quote_data, hd, hb, ho, hbs, hok, hos] at h
                  · by_cases hok2 : t2 = PType.Float64 ∨ t2 = PType.Int64
                    · by_cases hdt : td = PType.Datetime <;>
                        simp [check_quote_data, hd, hb, ho, hbs, hok, hos, hok2, hdt] at h
                    · simp [check_quote_data, hd, hb, ho, hbs, hok, hos, hok2] at h
                · exact ⟨t, rfl, hok⟩
            · simp [check_quote_data, hd, hb, ho, hot] at h
          · simp [check_quote_data, hd, hb, ho, hbt] at h
  · intro h
    rcases hd : s.lookup "dt" with _ | td
    · simp [check_quote_data, hd] at h
    · rcases hb : s.lookup "bid" with _ | tb
      · simp [check_quote_data, hd, hb] at h
      · rcases ho : s.lookup "ofr" with _ | tq
        · simp [check_quote_data, hd, hb, ho] at h
        · by_cases hbt : tb = PType.Float64
          · subst hbt
            by_cases hot : tq = PType.Float64
            · subst hot
              rcases hbs : s.lookup "bidsiz" with _ | t
              · simp [check_quote_data, hd, hb, ho, hbs] at h
              · by_cases hok : t = PType.Float64 ∨ t = PType.Int64
                · rcases hos : s.lookup "ofrsiz" with _ | t2
                  · simp [check_quote_data, hd, hb, ho, hbs, hok, hos] at h
                  · by_cases hok2 : t2 = PType.Float64 ∨ t2 = PType.Int64
                    · by_cases hdt : td = PType.Datetime <;>
                        simp [check_quote_data, hd, hb, ho, hbs, hok, hos, hok2, hdt] at h
                    · exact ⟨t2, rfl, hok2⟩
                · simp [check_quote_data, hd, hb, ho, hbs, hok] at h
            · simp [check_quote_data, hd, hb, ho, hot] at h
          · simp [check_quote_data, hd, hb, ho, hbt] at h
  · intro hp hd hsz
    rcases hsz with ⟨t, hsz, hok⟩
    refine ⟨(s.lookup "symbol").isNone && (s.lookup "sym_root").isNone, ?_⟩
    simp [check_trade_data, hp, hd, hsz, hok]
  · intro hb ho hd hbs hos
    rcases hbs with ⟨t, hbs, hok⟩
    rcases hos with ⟨t2, hos, hok2⟩
    refine ⟨(s.lookup "symbol").isNone && (s.lookup "sym_root").isNone, ?_⟩
    simp [check_quote_data, hb, ho, hd, hbs, hok, hos, hok2]

/-- C5 witness for the amended claim: a trade table with `size` present
as a string fails with `TypeError` on `size`; with `size` absent (and
`price`, `dt` fine) it fails with the `KeyError` on `size`; with all
columns fine it validates. -/
theorem claimC5_witness :
    (∃ t, List.lookup "size"
        [("price", PType.Float64), ("dt", PType.Datetime), ("size", PType.Utf8)] = some t ∧
      ¬ (t = PType.Float64 ∨ t = PType.Int64)) ∧
    (check_trade_data [("price", PType.Float64), ("dt", PType.Datetime)] =
        Except.error (CheckError.keyError "size") ∨
      check_trade_data [("price", PType.Float64), ("dt", PType.Datetime)] =
        Except.error (CheckError.keyError "dt")) ∧
    (∃ w, check_trade_data
        [("price", PType.Float64), ("dt", PType.Datetime), ("size", PType.Int64)] =
      Except.ok ([("price", PType.Float64), ("dt", PType.Datetime), ("size", PType.Int64)], w)) :=
  ⟨(claimC5_size_columns
      [("price", PType.Float64), ("dt", PType.Datetime), ("size", PType.Utf8)]).1 rfl,
   (claimC5_size_columns [("price", PType.Float64), ("dt", PType.Datetime)]).2.1 rfl rfl,
   (claimC5_size_columns
      [("price", PType.Float64), ("dt", PType.Datetime), ("size", PType.Int64)]).2.2.2.2.1
     rfl rfl ⟨PType.Int64, rfl, Or.inr rfl⟩⟩

/-- C8: a table that passes the validators' checks while containing
neither `symbol` nor `sym_root` makes both validators return the input
unchanged with the non-fatal warning emitted (and such tables do
succeed when the required columns are present and correctly typed). -/
theorem claimC8_missing_symbol_warning (s : Schema)
    (hsym : s.lookup "symbol" = none) (hroot : s.lookup "sym_root" = none) :
    (∀ r, check_trade_data s = Except.ok r → r = (s, true)) ∧
    (∀ r, check_quote_data s = Except.ok r → r = (s, true)) ∧
    (s.lookup "price" = some PType.Float64 → s.lookup "dt" = some PType.Datetime →
      (∃ t, s.lookup "size" = some t ∧ (t = PType.Float64 ∨ t = PType.Int64)) →
      check_trade_data s = Except.ok (s, true)) ∧
    (s.lookup "bid" = some PType.Float64 → s.lookup "ofr" = some PType.Float64 →
      s.lookup "dt" = some PType.Datetime →
      (∃ t, s.lookup "bidsiz" = some t ∧ (t = PType.Float64 ∨ t = PType.Int64)) →
      (∃ t, s.lookup "ofrsiz" = some t ∧ (t = PType.Float64 ∨ t = PType.Int64)) →
      check_quote_data s = Except.ok (s, true)) := by
  refine ⟨?_, ?_, ?_, ?_⟩
  · intro r h
    rcases hp : s.lookup "price" with _ | tp
    · simp [check_trade_data, hp] at h
    · rcases hd : s.lookup "dt" with _ | td
      · simp [check_trade_data, hp, hd] at h
      · by_cases hty : tp = PType.Float64
        · subst hty
          rcases hsz : s.lookup "size" with _ | t
          · simp [check_trade_data, hp, hd, hsz] at h
          · by_cases hok : t = PType.Float64 ∨ t = PType.Int64
            · by_cases hdt : td = PType.Datetime
              · have hres : check_trade_data s = Except.ok (s, true) := by
                  simp [check_trade_data, hp, hd, hsz, hok, hdt, hsym, hroot]
                exact (Except.ok.inj (hres.symm.trans h)).symm
              · simp [check_trade_data, hp, hd, hsz, hok, hdt] at h
            · simp [check_trade_data, hp, hd, hsz, hok] at h
        · simp [check_trade_data, hp, hd, hty] at h
  · intro r h
    rcases hd : s.lookup "dt" with _ | td
    · simp [check_quote_data, hd] at h
    · rcases hb : s.lookup "bid" with _ | tb
      · simp [check_quote_data, hd, hb] at h
      · rcases ho : s.lookup "ofr" with _ | tq
        · simp [check_quote_data, hd, hb, ho] at h
        · by_cases hbt : tb = PType.Float64
          · subst hbt
            by_cases hot : tq = PType.Float64
            · subst hot
              rcases hbs : s.lookup "bidsiz" with _ | t
              · simp [check_quote_data, hd, hb, ho, hbs] at h
              · by_cases hok : t = PType.Float64 ∨ t = PType.Int64
                · rcases hos : s.lookup "ofrsiz" with _ | t2
                  · simp [check_quote_data, hd, hb, ho, hbs, hok, hos] at h
                  · by_cases hok2 : t2 = PType.Float64 ∨ t2 = PType.Int64
                    · by_cases hdt : td = PType.Datetime
                      · have hres : check_quote_data s = Except.ok (s, true) := by
                          simp [check_quote_data, hd, hb, ho, hbs, hok, hos, hok2, hdt,
                            hsym, hroot]
                        exact (Except.ok.inj (hres.symm.trans h)).symm
                      · simp [check_quote_data, hd, hb, ho, hbs, hok, hos, hok2, hdt] at h
                    · simp [check_quote_data, hd, hb, ho, hbs, hok, hos, hok2] at h
                · simp [check_quote_data, hd, hb, ho, hbs, hok] at h
            · simp [check_quote_data, hd, hb, ho, hot] at h
          · simp [check_quote_data, hd, hb, ho, hbt] at h
  · intro hp hd hsz
    rcases hsz with ⟨t, hsz, hok⟩
    simp [check_trade_data, hp, hd, hsz, hok, hsym, hroot]
  · intro hb ho hd hbs hos
    rcases hbs with ⟨t, hbs, hok⟩
    rcases hos with ⟨t2, hos, hok2⟩
    simp [check_quote_data, hb, ho, hd, hbs, hok, hos, hok2, hsym, hroot]

/-- C8 witness: a concrete trade table and quote table without `symbol`
or `sym_root` validate with the warning and are returned unchanged. -/
theorem claimC8_witness :
    check_trade_data [("price", PType.Float64), ("dt", PType.Datetime), ("size", PType.Int64)] =
      Except.ok ([("price", PType.Float64), ("dt", PType.Datetime), ("size", PType.Int64)], true) ∧
    check_quote_data
        [("bid", PType.Float64), ("ofr", PType.Float64), ("dt", PType.Datetime),
          ("bidsiz", PType.Int64), ("ofrsiz", PType.Float64)] =
      Except.ok ([("bid", PType.Float64), ("ofr", PType.Float64), ("dt", PType.Datetime),
          ("bidsiz", PType.Int64), ("ofrsiz", PType.Float64)], true) :=
  ⟨(claimC8_missing_symbol_warning
      [("price", PType.Float64), ("dt", PType.Datetime), ("size", PType.Int64)]
      rfl rfl).2.2.1 rfl rfl ⟨PType.Int64, rfl, Or.inr rfl⟩,
   (claimC8_missing_symbol_warning
      [("bid", PType.Float64), ("ofr", PType.Float64), ("dt", PType.Datetime),
        ("bidsiz", PType.Int64), ("ofrsiz", PType.Float64)]
      rfl rfl).2.2.2 rfl rfl rfl
     ⟨PType.Int64, rfl, Or.inr rfl⟩ ⟨PType.Float64, rfl, Or.inl rfl⟩⟩

/-! ### Claims C2, C6: the column canonicalizer -/

theorem map_canonName_canonName (ns : List String) :
    (ns.map canonName).map canonName = ns.map canonName := by
  rw [List.map_map]
  exact List.map_congr_left (fun x _ => canonName_canonName x)

theorem canonDF_canonDF {α : Type} (df : ColDF α) : canonDF (canonDF df) = canonDF df := by
  unfold canonDF
  rw [List.map_map]
  refine List.map_congr_left ?_
  intro p _
  simp [Function.comp, canonName_canonName]

/-- C2: column canonicalization is idempotent — applying
`check_column_names` to its own (successful or failed) outcome changes
nothing; and indeed no canonical target of the alias table is itself an
alias key or contains an uppercase letter. -/
theorem claimC2_canonicalization_idempotent {α : Type} (df : ColDF α) :
    (check_column_names df).bind check_column_names = check_column_names df ∧
    rename_map.all
      (fun p => (rename_map.lookup p.2).isNone && (lowerStr p.2 == p.2)) = true := by
  constructor
  · rw [check_column_names_eq df]
    by_cases h : ((colNames df).map canonName).Nodup
    · rw [if_pos h, except_bind_ok, check_column_names_eq]
      have hc : colNames (canonDF df) = (colNames df).map canonName :=
        colNames_map df canonName
      rw [hc, map_canonName_canonName, if_pos h, canonDF_canonDF]
    · rw [if_neg h, except_bind_error]
  · exact rename_map_targets_fixed

/-- C6 counterexample: `check_column_names` does raise an error on some
input tables — a table with columns `ask` and `ofr` both present makes
the alias rename collide, and polars `rename` raises a duplicate-column
error. -/
theorem claimC6_counterexample :
    check_column_names ([("ask", 0), ("ofr", 0)] : ColDF Nat) =
      Except.error RenameError.duplicateColumn := by
  rw [check_column_names_eq]
  rw [if_neg (by decide)]

/-- C6 (amended): whenever the canonicalized column names are pairwise
distinct (which polars requires of a frame), `check_column_names`
raises no error and returns the table with the same columns in order,
contents untouched, every name lowercased and names in the alias set
replaced by their canonical form, all other names unchanged; when two
columns collide after canonicalization the underlying rename raises a
duplicate-column error instead. -/
theorem claimC6_canonicalizes {α : Type} (df : ColDF α)
    (h : ((colNames df).map canonName).Nodup) :
    check_column_names df = Except.ok (canonDF df) ∧
    (canonDF df).map Prod.snd = df.map Prod.snd ∧
    colNames (canonDF df) = (colNames df).map canonName ∧
    (∀ n, rename_map.lookup (lowerStr n) = none → canonName n = lowerStr n) ∧
    (∀ n t, rename_map.lookup (lowerStr n) = some t → canonName n = t) := by
  refine ⟨?_, ?_, colNames_map df canonName, ?_, ?_⟩
  · rw [check_column_names_eq, if_pos h]
  · unfold canonDF
    rw [List.map_map]
    rfl
  · intro n hn
    unfold canonName applyMap
    rw [hn]
    rfl
  · intro n t hn
    unfold canonName applyMap
    rw [hn]
    rfl

/-- C6 witness: a concrete mixed-case table with an alias column is
canonicalized without error. -/
theorem claimC6_witness :
    check_column_names ([("PRICE", 0), ("ASK", 1), ("unknown", 2)] : ColDF Nat) =
      Except.ok [("price", 0), ("ofr", 1), ("unknown", 2)] := by
  have h := (claimC6_canonicalizes ([("PRICE", 0), ("ASK", 1), ("unknown", 2)] : ColDF Nat)
    (by decide)).1
  rw [h]
  rfl

/-! ### Claims C3, C9: `select_exchange` -/

/-- C3: on a table with the exchange and time columns,
`select_exchange` for a code in the exchange enumeration returns
exactly the rows whose exchange column equals the code, time-sorted
ascending; for a code absent from the enumeration it always fails with
the invalid-exchange error, whatever the column contains. -/
theorem claimC3_select_exchange (df : PolarsDF) (exchange : String)
    (hex : "ex" ∈ df.cols) (hdt : "dt" ∈ df.cols) :
    ((EXCHANGES.lookup exchange).isSome →
      ∃ out, select_exchange df exchange = Except.ok out ∧
        out.Perm (df.rows.filter (fun r => r.ex == exchange)) ∧
        (∀ r, r ∈ out ↔ (r ∈ df.rows ∧ r.ex = exchange)) ∧
        List.Pairwise (fun x y => x.dt ≤ y.dt) out) ∧
    (EXCHANGES.lookup exchange = none →
      select_exchange df exchange = Except.error (SelectError.invalidExchange exchange)) := by
  constructor
  · intro hsome
    refine ⟨sortAsc (fun r => r.dt) (df.rows.filter (fun r => r.ex == exchange)), ?_, ?_, ?_, ?_⟩
    · have hcond : ¬ ((EXCHANGES.lookup exchange).isNone = true) := by
        rw [Option.isNone_iff_eq_none]
        intro hn
        rw [hn] at hsome
        exact Bool.noConfusion hsome
      unfold select_exchange
      rw [if_neg (not_not_intro hex), if_neg (not_not_intro hdt), if_neg hcond]
    · exact perm_sortAsc _ _
    · intro r
      rw [(perm_sortAsc _ _).mem_iff, List.mem_filter]
      simp
    · exact sorted_sortAsc _ _
  · intro hnone
    unfold select_exchange
    rw [if_neg (not_not_intro hex), if_neg (not_not_intro hdt), if_pos (by simp [hnone])]

/-- C3 witness: on a one-row table with both columns, selecting the
valid code "N" succeeds with the matching rows, and selecting the
invalid code "ZZ" fails with the invalid-exchange error. -/
theorem claimC3_witness :
    (∃ out, select_exchange ⟨["ex", "dt"], [⟨"A", "N", 1, 5, 10⟩]⟩ "N" = Except.ok out ∧
        out.Perm ((⟨["ex", "dt"], [⟨"A", "N", 1, 5, 10⟩]⟩ : PolarsDF).rows.filter
          (fun r => r.ex == "N")) ∧
        (∀ r, r ∈ out ↔
          (r ∈ (⟨["ex", "dt"], [⟨"A", "N", 1, 5, 10⟩]⟩ : PolarsDF).rows ∧ r.ex = "N")) ∧
        List.Pairwise (fun x y => x.dt ≤ y.dt) out) ∧
    select_exchange ⟨["ex", "dt"], [⟨"A", "N", 1, 5, 10⟩]⟩ "ZZ" =
      Except.error (SelectError.invalidExchange "ZZ") :=
  ⟨(claimC3_select_exchange ⟨["ex", "dt"], [⟨"A", "N", 1, 5, 10⟩]⟩ "N"
      (by decide) (by decide)).1 (by decide),
   (claimC3_select_exchange ⟨["ex", "dt"], [⟨"A", "N", 1, 5, 10⟩]⟩ "ZZ"
      (by decide) (by decide)).2 (by decide)⟩

/-- C9: `select_exchange` also requires the time column: on a table
with the exchange column but without `dt` it fails with the
missing-column error for `dt`, for every requested code — in
particular for a code outside the enumeration, the missing column is
reported, not the invalid exchange. -/
theorem claimC9_time_column_checked_first (df : PolarsDF) (exchange : String)
    (hex : "ex" ∈ df.cols) (hdt : "dt" ∉ df.cols) :
    select_exchange df exchange = Except.error (SelectError.missingColumn "dt") := by
  unfold select_exchange
  rw [if_neg (not_not_intro hex), if_pos hdt]

/-- C9 witness: a table lacking `dt`, queried with the invalid code
"ZZ", reports the missing `dt` column rather than the invalid
exchange. -/
theorem claimC9_witness :
    select_exchange ⟨["ex"], [⟨"A", "N", 1, 5, 10⟩]⟩ "ZZ" =
      Except.error (SelectError.missingColumn "dt") :=
  claimC9_time_column_checked_first ⟨["ex"], [⟨"A", "N", 1, 5, 10⟩]⟩ "ZZ"
    (by decide) (by decide)

/-! ### Claim C1: `auto_select_exchange_trades` -/

theorem flatMap_eq_map {β γ : Type} (l : List β) (g : β → List γ) (f : β → γ)
    (h : ∀ a ∈ l, g a = [f a]) : l.flatMap g = l.map f := by
  induction l with
  | nil => rfl
  | cons a t ih =>
      rw [List.flatMap_cons, h a (List.mem_cons_self a t),
        ih (fun b hb => h b (List.mem_cons_of_mem a hb)), List.map_cons,
        List.singleton_append]

theorem flatMap_eq_filter {β : Type} (l : List β) (g : β → List β) (p : β → Bool)
    (h : ∀ a ∈ l, g a = if p a then [a] else []) : l.flatMap g = l.filter p := by
  induction l with
  | nil => rfl
  | cons a t ih =>
      rw [List.flatMap_cons, h a (List.mem_cons_self a t),
        ih (fun b hb => h b (List.mem_cons_of_mem a hb)), List.filter_cons]
      cases hp : p a with
      | true => rw [if_pos rfl, if_pos rfl, List.singleton_append]
      | false =>
          rw [if_neg (by simp), if_neg (by simp), List.nil_append]

/-- Filtering a keyed map over distinct keys yields the matching
singleton or nothing. -/
theorem filter_key_map {β γ : Type} [BEq β] [LawfulBEq β] (ns : List β) (f : β → γ) (k : β)
    (hnd : ns.Nodup) :
    ((ns.map (fun x => (x, f x))).filter (fun m => m.1 == k)) =
      if k ∈ ns then [(k, f k)] else [] := by
  induction ns with
  | nil => simp
  | cons c cs ih =>
      rcases List.nodup_cons.mp hnd with ⟨hc, hcs⟩
      rw [List.map_cons, List.filter_cons]
      cases hck : (c == k) with
      | true =>
          have hceq : c = k := eq_of_beq hck
          subst hceq
          rw [if_pos rfl, ih hcs, if_neg hc, if_pos (List.mem_cons_self c cs)]
      | false =>
          have hcne : ¬ c = k := by
            intro h
            rw [h] at hck
            simp at hck
          rw [if_neg (show ¬ false = true by simp), ih hcs]
          by_cases hk : k ∈ cs
          · rw [if_pos hk, if_pos (List.mem_cons_of_mem c hk)]
          · have hkc : ¬ k = c := fun h => hcne h.symm
            rw [if_neg hk, if_neg (by simp [hk, hkc])]

theorem init_le_foldl_max (t : Int) (ts : List Int) : t ≤ ts.foldl max t := by
  induction ts generalizing t with
  | nil => exact le_refl t
  | cons b tb ih =>
      rw [List.foldl_cons]
      exact le_trans (le_max_left t b) (ih (max t b))

theorem mem_le_foldl_max (t : Int) (ts : List Int) (x : Int) (hx : x ∈ ts) :
    x ≤ ts.foldl max t := by
  induction ts generalizing t with
  | nil => cases hx
  | cons b tb ih =>
      rw [List.foldl_cons]
      rcases List.mem_cons.mp hx with rfl | hxt
      · exact le_trans (le_max_right t x) (init_le_foldl_max (max t x) tb)
      · exact ih (max t b) hxt

theorem foldl_max_mem (t : Int) (ts : List Int) : ts.foldl max t ∈ t :: ts := by
  induction ts generalizing t with
  | nil => exact List.mem_cons_self t []
  | cons b tb ih =>
      rw [List.foldl_cons]
      rcases List.mem_cons.mp (ih (max t b)) with hm | hm
      · rcases max_choice t b with hc | hc
        · rw [hm, hc]
          exact List.mem_cons_self t (b :: tb)
        · rw [hm, hc]
          exact List.mem_cons_of_mem t (List.mem_cons_self b tb)
      · exact List.mem_cons_of_mem t (List.mem_cons_of_mem b hm)

theorem mem_groupPairs {rows : List TradeRow} {r : TradeRow} (hr : r ∈ rows) :
    (r.symbol, r.ex) ∈ groupPairs rows := by
  unfold groupPairs
  exact List.mem_dedup.mpr (List.mem_map.mpr ⟨r, hr, rfl⟩)

theorem nodup_groupPairs (rows : List TradeRow) : (groupPairs rows).Nodup :=
  List.nodup_dedup _

theorem mem_symbolList {rows : List TradeRow} {a : (String × String) × Int}
    (ha : a ∈ aggregated_df rows) : a.1.1 ∈ symbolList rows := by
  unfold symbolList
  exact List.mem_dedup.mpr (List.mem_map.mpr ⟨a, ha, rfl⟩)

/-- The symbol join (steps 2-3) attaches to every aggregated group its
symbol's maximum total. -/
theorem joined_df_eq (rows : List TradeRow) :
    joined_df rows =
      (aggregated_df rows).map (fun a => (a.1, a.2, maxGroupTotal rows a.1.1)) := by
  unfold joined_df
  refine flatMap_eq_map _ _ _ ?_
  intro a ha
  unfold max_size_df
  rw [filter_key_map _ _ _ (by unfold symbolList; exact List.nodup_dedup _),
    if_pos (mem_symbolList ha)]
  rfl

/-- Step 4 keeps the aggregated groups whose total attains their
symbol's maximum. -/
theorem filtered_df_eq (rows : List TradeRow) :
    filtered_df rows =
      ((aggregated_df rows).filter (fun a => a.2 == maxGroupTotal rows a.1.1)).map
        (fun a => (a.1, a.2, maxGroupTotal rows a.1.1)) := by
  unfold filtered_df
  rw [joined_df_eq, List.filter_map]
  rfl

theorem filtered_key_eq (rows : List TradeRow) (r : TradeRow) (hr : r ∈ rows) :
    ((filtered_df rows).filter (fun t => t.1 == (r.symbol, r.ex))) =
      if totalSize rows r.symbol r.ex == maxGroupTotal rows r.symbol then
        [((r.symbol, r.ex), totalSize rows r.symbol r.ex, maxGroupTotal rows r.symbol)]
      else [] := by
  have h1 : ((filtered_df rows).filter (fun t => t.1 == (r.symbol, r.ex))) =
      ((aggregated_df rows).filter
        (fun a => (a.1 == (r.symbol, r.ex)) && (a.2 == maxGroupTotal rows a.1.1))).map
        (fun a => (a.1, a.2, maxGroupTotal rows a.1.1)) := by
    rw [filtered_df_eq, List.filter_map, List.filter_filter]
    rfl
  have h2 : (aggregated_df rows).filter
      (fun a => (a.1 == (r.symbol, r.ex)) && (a.2 == maxGroupTotal rows a.1.1)) =
      ((aggregated_df rows).filter (fun a => a.1 == (r.symbol, r.ex))).filter
        (fun a => a.2 == maxGroupTotal rows a.1.1) := by
    rw [List.filter_filter]
    exact List.filter_congr (fun a _ => Bool.and_comm _ _)
  have h3 : (aggregated_df rows).filter (fun a => a.1 == (r.symbol, r.ex)) =
      [((r.symbol, r.ex), totalSize rows r.symbol r.ex)] := by
    have hf := filter_key_map (groupPairs rows) (fun p => totalSize rows p.1 p.2)
      ((r.symbol, r.ex)) (nodup_groupPairs rows)
    rw [if_pos (mem_groupPairs hr)] at hf
    exact hf
  rw [h1, h2, h3]
  cases hq : (totalSize rows r.symbol r.ex == maxGroupTotal rows r.symbol) with
  | true => simp [List.filter_cons, hq]
  | false => simp [List.filter_cons, hq]

/-- The whole pipeline in closed form: keep exactly the rows whose
group total attains their symbol's maximum, then time-sort. -/
theorem auto_select_eq (rows : List TradeRow) :
    auto_select_exchange_trades rows =
      sortAsc (fun r => r.dt) (rows.filter (fun r => decide (keepRow rows r))) := by
  unfold auto_select_exchange_trades
  congr 1
  refine flatMap_eq_filter _ _ _ ?_
  intro r hr
  rw [filtered_key_eq rows r hr]
  cases hq : (totalSize rows r.symbol r.ex == maxGroupTotal rows r.symbol) with
  | true =>
      have hkeep : decide (keepRow rows r) = true := decide_eq_true (eq_of_beq hq)
      rw [if_pos rfl, hkeep, if_pos rfl]
      rfl
  | false =>
      have hkeep : decide (keepRow rows r) = false := by
        refine decide_eq_false ?_
        intro heq
        rw [heq] at hq
        simp at hq
      rw [if_neg (by simp), hkeep, if_neg (by simp)]
      rfl

theorem maxGroupTotal_eq (rows : List TradeRow) (sym : String) (t : Int) (ts : List Int)
    (h : ((aggregated_df rows).filter (fun a => a.1.1 == sym)).map Prod.snd = t :: ts) :
    maxGroupTotal rows sym = ts.foldl max t := by
  unfold maxGroupTotal
  rw [h]

theorem totalSize_mem_totals {rows : List TradeRow} {r : TradeRow} (hr : r ∈ rows) :
    totalSize rows r.symbol r.ex ∈
      ((aggregated_df rows).filter (fun a => a.1.1 == r.symbol)).map Prod.snd := by
  refine List.mem_map.mpr ⟨((r.symbol, r.ex), totalSize rows r.symbol r.ex), ?_, rfl⟩
  refine List.mem_filter.mpr ⟨?_, by simp⟩
  unfold aggregated_df
  exact List.mem_map.mpr ⟨(r.symbol, r.ex), mem_groupPairs hr, rfl⟩

/-- C1: on a validated trade table, `auto_select_exchange_trades`
returns exactly the original rows whose `(symbol, exchange)` group
total attains the maximum per-group total of their symbol, time-sorted
ascending; tying exchanges are all retained and sub-maximal groups
contribute no rows.  The last two conjuncts certify that
`maxGroupTotal` really is the maximum of the symbol's group totals
(an upper bound that is attained by some exchange of that symbol). -/
theorem claimC1_auto_select_exchange_trades (rows : List TradeRow) :
    (auto_select_exchange_trades rows).Perm
      (rows.filter (fun r => decide (keepRow rows r))) ∧
    (∀ r, r ∈ auto_select_exchange_trades rows ↔
      (r ∈ rows ∧ totalSize rows r.symbol r.ex = maxGroupTotal rows r.symbol)) ∧
    List.Pairwise (fun x y => x.dt ≤ y.dt) (auto_select_exchange_trades rows) ∧
    (∀ r ∈ rows, totalSize rows r.symbol r.ex ≤ maxGroupTotal rows r.symbol) ∧
    (∀ r ∈ rows, ∃ e, totalSize rows r.symbol e = maxGroupTotal rows r.symbol ∧
      ∃ rr ∈ rows, rr.symbol = r.symbol ∧ rr.ex = e) := by
  refine ⟨?_, ?_, ?_, ?_, ?_⟩
  · rw [auto_select_eq]
    exact perm_sortAsc _ _
  · intro r
    rw [auto_select_eq, (perm_sortAsc _ _).mem_iff, List.mem_filter]
    simp [keepRow]
  · rw [auto_select_eq]
    exact sorted_sortAsc _ _
  · intro r hr
    have hmem := totalSize_mem_totals hr
    cases htot : ((aggregated_df rows).filter (fun a => a.1.1 == r.symbol)).map Prod.snd with
    | nil =>
        rw [htot] at hmem
        cases hmem
    | cons t ts =>
        rw [maxGroupTotal_eq rows r.symbol t ts htot]
        rw [htot] at hmem
        rcases List.mem_cons.mp hmem with heq | hmm
        · rw [heq]
          exact init_le_foldl_max t ts
        · exact mem_le_foldl_max t ts _ hmm
  · intro r hr
    have hmem := totalSize_mem_totals hr
    cases htot : ((aggregated_df rows).filter (fun a => a.1.1 == r.symbol)).map Prod.snd with
    | nil =>
        rw [htot] at hmem
        cases hmem
    | cons t ts =>
        have hM := maxGroupTotal_eq rows r.symbol t ts htot
        have hmm : maxGroupTotal rows r.symbol ∈
            ((aggregated_df rows).filter (fun a => a.1.1 == r.symbol)).map Prod.snd := by
          rw [htot, hM]
          exact foldl_max_mem t ts
        rcases List.mem_map.mp hmm with ⟨a, haf, ha2⟩
        rcases List.mem_filter.mp haf with ⟨hagg, hkey⟩
        unfold aggregated_df at hagg
        rcases List.mem_map.mp hagg with ⟨p, hp, rfl⟩
        have hkey' : p.1 = r.symbol := by simpa using hkey
        rcases List.mem_map.mp (List.mem_dedup.mp hp) with ⟨rr, hrr, hpe⟩
        have ha2' : totalSize rows p.1 p.2 = maxGroupTotal rows r.symbol := ha2
        rw [hkey'] at ha2'
        refine ⟨p.2, ha2', rr, hrr, ?_, ?_⟩
        · rw [← hpe] at hkey'
          exact hkey'
        · have hre : rr.ex = p.2 := by rw [← hpe]
          exact hre

end HighFrequency
